import Mathlib

/-!
# Verification of the `wikip` scrapers (`scripts/afd.py`, `scripts/new.py`)

A shallow embedding of the pure parts of the two scraper scripts:

* an `Elem` type modelling lxml element nodes (tag, attributes, own text,
  tail text, ordered children);
* the traversal helpers of `afd.py` (`is_bio`, `is_header`, `has_span`,
  `child_matching`, `next_tag`, `all_text`, `find_h3`, `find_ul`,
  `find_links`, `break_by`, `find_text_node`, `process_text`, `get_afds`,
  and the row-emission part of `get_log_page`);
* the pagination and row-parsing parts of `new.py` (`iter_new_pages`,
  `get_next`, `get_new`, and the date-window filter from `main`).

Python `set` values are modelled as duplicate-free `List String` values with
membership-based insert/union/intersection, fallible code returns
`Except String _`, and the network boundary (`get_content`) is modelled by
passing the fetched content tree (or a fetch function) as an argument.
-/

set_option autoImplicit false

deriving instance DecidableEq for Except

namespace Wikip

/-! ## The element model

An lxml element: tag name, attribute list, own text (text before the first
child), tail text (text after the element's closing tag, which lxml stores on
the element itself), and the ordered list of child elements. -/

inductive Elem : Type where
  | mk (tag : String) (attrs : List (String × String)) (text : Option String)
       (tail : Option String) (children : List Elem)

def Elem.tagOf : Elem → String
  | .mk t _ _ _ _ => t

def Elem.attrs : Elem → List (String × String)
  | .mk _ a _ _ _ => a

def Elem.text : Elem → Option String
  | .mk _ _ t _ _ => t

def Elem.tail : Elem → Option String
  | .mk _ _ _ t _ => t

def Elem.children : Elem → List Elem
  | .mk _ _ _ _ c => c

/-- `el.get(name)`: first attribute with the given name, if any. -/
def Elem.attr (el : Elem) (name : String) : Option String :=
  match el.attrs.find? (fun p => p.1 == name) with
  | none => none
  | some p => some p.2

/-- `el.get(name, default)`. -/
def Elem.attrD (el : Elem) (name dflt : String) : String :=
  match el.attr name with
  | none => dflt
  | some v => v

/-- Reading an optional text field as Python reads a string that may be
`None`-guarded to the empty string. -/
def optD : Option String → String
  | none => ""
  | some s => s

/-! ## Small string utilities modelling the Python primitives used -/

/-- Does `needle` occur as a contiguous block at some position of the
list? -/
def listContainsRun (needle : List Char) : List Char → Bool
  | [] => needle.isEmpty
  | h :: t => needle.isPrefixOf (h :: t) || listContainsRun needle t

/-- Python `needle in haystack` on strings (substring containment). -/
def strContains (haystack needle : String) : Bool :=
  listContainsRun needle.toList haystack.toList

/-- Python `str.isdigit` (restricted to ASCII digits): non-empty and all
characters are digits. -/
def pyIsdigit (s : String) : Bool :=
  !s.isEmpty && s.toList.all Char.isDigit

/-- Accumulator loop for `pySplit`: `cur` holds the current word reversed. -/
def pySplitGo (cur : List Char) : List Char → List String
  | [] => if cur.isEmpty then [] else [String.mk cur.reverse]
  | c :: t =>
    if c.isWhitespace then
      if cur.isEmpty then pySplitGo [] t
      else String.mk cur.reverse :: pySplitGo [] t
    else pySplitGo (c :: cur) t

/-- Python `str.split()` with no argument: split on whitespace runs,
discarding empty pieces. -/
def pySplit (s : String) : List String :=
  pySplitGo [] s.toList

/-- A `\w` word character as used by the `WP:\w+` regular expression
(restricted to ASCII): letter, digit or underscore. -/
def isWordChar (c : Char) : Bool :=
  c.isAlphanum || c == '_'

/-- `re.findall(r'WP:\w+', s)`: scan left to right; at each position try to
match `WP:` followed by a maximal non-empty run of word characters; on a
match emit it and resume after it, otherwise advance one character. The
`Nat` argument is recursion fuel; every step consumes at least one input
character, so fuel equal to the input length suffices. -/
def wpScan : Nat → List Char → List String
  | 0, _ => []
  | _, [] => []
  | fuel + 1, 'W' :: 'P' :: ':' :: rest2 =>
    let run := rest2.takeWhile isWordChar
    if run.isEmpty then wpScan fuel ('P' :: ':' :: rest2)
    else String.mk ('W' :: 'P' :: ':' :: run) :: wpScan fuel (rest2.dropWhile isWordChar)
  | fuel + 1, _ :: rest => wpScan fuel rest

def wpFindall (s : String) : List String :=
  wpScan s.toList.length s.toList

/-! ## Python sets modelled as duplicate-free lists -/

/-- Insert into a set (list representation): no-op when already present. -/
def setInsert (s : List String) (x : String) : List String :=
  if s.contains x then s else s ++ [x]

/-- Set union `s |= t` / `s | t`. -/
def setUnion (s t : List String) : List String :=
  t.foldl setInsert s

/-- Set intersection `s & t`. -/
def setInter (s t : List String) : List String :=
  s.filter (fun x => t.contains x)

/-- Lexicographic (code-point) comparison of character lists, matching how
Python compares strings. -/
def charsLe : List Char → List Char → Bool
  | [], _ => true
  | _ :: _, [] => false
  | a :: as, b :: bs =>
    if a.val < b.val then true
    else if b.val < a.val then false
    else charsLe as bs

def strLeb (a b : String) : Bool :=
  charsLe a.toList b.toList

/-- Insert into a lexicographically sorted list. -/
def insertSorted (x : String) : List String → List String
  | [] => [x]
  | y :: ys => if strLeb x y then x :: y :: ys else y :: insertSorted x ys

/-- Python `sorted` on a set of strings. -/
def pySorted (l : List String) : List String :=
  l.foldr insertSorted []

/-! ## `afd.py`: vocabulary and classifier -/

/-- `BIO_TAGS`, the fixed vocabulary (the commented-out entry of the source
is omitted, as in the source). -/
def BIO_TAGS : List String :=
  ["Authors-related", "Businesspeople-related", "educators-related",
   "filmmakers-related", "People-related", "Politicians-related",
   "Sportspeople-related", "Women-related",
   "WP:ACADEMIC", "WP:ANYBIO", "WP:ARTIST", "WP:BIO", "WP:MUSBIO",
   "WP:MUSICBIO", "WP:NACADEMIC", "WP:NACTOR", "WP:NSPORT", "WP:TEACHER"]

/-- `is_bio(tokens)`: the intersection of the token set with the vocabulary
(Python returns the intersection itself; it is truthy iff non-empty). -/
def is_bio (tokens : List String) : List String :=
  setInter tokens BIO_TAGS

/-! ## `afd.py`: traversal helpers -/

/-- `is_header(node)`: an `h3` containing a direct `span.mw-headline` child
that itself has an `a` child, or a `div` whose class attribute contains both
`boilerplate` and `xfd-closed`. -/
def is_header (node : Elem) : Bool :=
  (node.tagOf == "h3" &&
    node.children.any (fun s =>
      s.tagOf == "span" && s.attr "class" == some "mw-headline" &&
      s.children.any (fun a => a.tagOf == "a"))) ||
  (node.tagOf == "div" &&
    strContains (node.attrD "class" "") "boilerplate" &&
    strContains (node.attrD "class" "") "xfd-closed")

/-- `has_span(id_value, el)`: does `el` have a direct `span` child whose
`id` attribute equals `id_value`? -/
def has_span (id_value : String) (el : Elem) : Bool :=
  el.children.any (fun s => s.tagOf == "span" && s.attr "id" == some id_value)

/-- The index-walking loop of `child_matching`, modelled as a walk over the
suffix of the child list starting at index `i`. -/
def child_matching_go (f : Elem → Bool) : List Elem → Nat → Option Nat
  | [], _ => none
  | c :: cs, i => if f c then some i else child_matching_go f cs (i + 1)

/-- `child_matching(el, f, start)`: index of the first child at or after
`start` satisfying `f`, else `None`. -/
def child_matching (el : Elem) (f : Elem → Bool) (start : Nat := 0) : Option Nat :=
  child_matching_go f (el.children.drop start) start

/-- `next_tag(parent, tag, start)`. -/
def next_tag (parent : Elem) (tag : String) (start : Nat := 0) : Option Nat :=
  child_matching parent (fun e => e.tagOf == tag) start

/-- `find_h3(parent, id_value, start)`: like `child_matching` with the
`h3`-with-span predicate, but a miss raises. -/
def find_h3 (parent : Elem) (id_value : String) (start : Nat := 0) :
    Except String Nat :=
  match child_matching parent
      (fun e => e.tagOf == "h3" && has_span id_value e) start with
  | none => .error ("Unable to find #" ++ id_value ++ ".")
  | some i => .ok i

/-- `find_ul(parent, start)`. -/
def find_ul (parent : Elem) (start : Nat := 0) : Except String Nat :=
  match child_matching parent (fun e => e.tagOf == "ul") start with
  | none => .error "Unable to find list."
  | some i => .ok i

mutual
/-- `all_text(el)`: own text, then each child's `all_text` in order, then
the element's tail text. -/
def all_text : Elem → String
  | .mk _ _ tx tl ch => optD tx ++ all_text_list ch ++ optD tl
def all_text_list : List Elem → String
  | [] => ""
  | c :: cs => all_text c ++ all_text_list cs
end

mutual
/-- All descendant elements of `el` (excluding `el` itself) in document
(pre-)order, as iterated by `findall('.//tag')`. -/
def descendants : Elem → List Elem
  | .mk _ _ _ _ ch => descendants_list ch
def descendants_list : List Elem → List Elem
  | [] => []
  | c :: cs => c :: (descendants c ++ descendants_list cs)
end

/-- First descendant satisfying `p` in document order
(`el.find('.//...')`). -/
def findDesc (p : Elem → Bool) (el : Elem) : Option Elem :=
  (descendants el).find? p

/-! ## `afd.py`: `break_by` (claim C1) -/

/-- The accumulator loop of `break_by`. -/
def break_by_go {α : Type} (fn : α → Bool) : List α → List α → List (List α)
  | [], accum => if accum.isEmpty then [] else [accum]
  | x :: rest, accum =>
    if fn x && !accum.isEmpty then accum :: break_by_go fn rest [x]
    else break_by_go fn rest (accum ++ [x])

/-- `break_by(fn, xs)`: chunk `xs`, starting a new chunk before each element
on which `fn` fires (except when the accumulator is still empty), and flush
the final chunk. -/
def break_by {α : Type} (fn : α → Bool) (xs : List α) : List (List α) :=
  break_by_go fn xs []

/-! ## A model of `urllib.parse.urljoin`

Only the reference shapes these scripts produce are modelled: an absolute
URL is returned as-is, a root-relative reference (leading `/`) replaces the
path of the base, any other non-empty reference replaces the base's last
path segment, and a falsy (absent or empty) reference returns the base. -/

/-- Split a character list at the first occurrence of `sep`, returning the
parts before and after it. -/
def splitOnFirst (sep : List Char) : List Char → Option (List Char × List Char)
  | [] => if sep.isEmpty then some ([], []) else none
  | c :: t =>
    if sep.isPrefixOf (c :: t) then some ([], (c :: t).drop sep.length)
    else match splitOnFirst sep t with
      | none => none
      | some (a, b) => some (c :: a, b)

/-- Keep a path up to and including its last `/` (the directory part). -/
def dirPart (path : List Char) : List Char :=
  match (path.reverse.dropWhile (fun c => c != '/')).reverse with
  | [] => ['/']
  | p => p

def urljoin (base url : String) : String :=
  if base == "" then url
  else if url == "" then base
  else match splitOnFirst "://".toList url.toList with
  | some _ => url
  | none =>
    match splitOnFirst "://".toList base.toList with
    | none => url
    | some (scheme, rest) =>
      let authority := rest.takeWhile (fun c => c != '/')
      if url.toList.head? == some '/' then
        String.mk (scheme ++ "://".toList ++ authority) ++ url
      else
        let path := rest.dropWhile (fun c => c != '/')
        String.mk (scheme ++ "://".toList ++ authority ++ dirPart path) ++ url

/-- `urljoin(base, x)` where `x` may be Python `None`: `urljoin` returns the
base when the reference is falsy. -/
def urljoinOpt (base : String) : Option String → String
  | none => base
  | some u => urljoin base u

/-! ## `afd.py`: `find_links` -/

/-- The descendant anchors of a node, in document order
(`parent.findall('.//a')`). -/
def anchorsOf (parent : Elem) : List Elem :=
  (descendants parent).filter (fun a => a.tagOf == "a")

/-- The per-anchor loop of `find_links`: skip anchors with no `href`; on an
anchor with an `href` whose own text is absent, `a.text.isdigit()` raises
`AttributeError`; otherwise drop anchors with all-digit text and resolve the
rest against the base. -/
def find_links_go (base_uri : String) : List Elem → Except String (List String)
  | [] => .ok []
  | a :: rest =>
    match a.attr "href" with
    | none => find_links_go base_uri rest
    | some href =>
      match a.text with
      | none => .error "AttributeError: NoneType has no attribute isdigit"
      | some t =>
        if pyIsdigit t then find_links_go base_uri rest
        else do
          let ls ← find_links_go base_uri rest
          .ok (urljoin base_uri href :: ls)

/-- `find_links(parent, base_uri)`. -/
def find_links (parent : Elem) (base_uri : String) : Except String (List String) :=
  find_links_go base_uri (anchorsOf parent)

/-! ## `afd.py`: `find_text_node` and `process_text` -/

mutual
/-- Number of nodes in an element tree (used as breadth-first search fuel). -/
def elemCount : Elem → Nat
  | .mk _ _ _ _ ch => 1 + elemCountList ch
def elemCountList : List Elem → Nat
  | [] => 0
  | c :: cs => elemCount c + elemCountList cs
end

/-- The breadth-first queue loop of `find_text_node`: pop the front node,
return it when its own text equals `t`, otherwise push its children. Each
step pops one node, so fuel equal to the total node count suffices. -/
def bfs_find_text (t : String) : Nat → List Elem → Option Elem
  | 0, _ => none
  | _, [] => none
  | fuel + 1, c :: q =>
    if c.text == some t then some c else bfs_find_text t fuel (q ++ c.children)

/-- `find_text_node(parent, text)`: first node (in breadth-first order,
starting from `parent` itself) whose own text equals `text`. -/
def find_text_node (parent : Elem) (t : String) : Option Elem :=
  bfs_find_text t (elemCount parent) [parent]

/-- `process_text(node, tokens, tags)`: accumulate the `WP:`-tags and the
whitespace tokens of the node's accumulated text into the two sets,
returned as the pair `(tokens, tags)`. -/
def process_text (node : Elem) (tokens tags : List String) :
    List String × List String :=
  let text := all_text node
  (setUnion tokens (pySplit text), setUnion tags (wpFindall text))

/-- `process_text` folded over a list of elements. -/
def process_text_list : List Elem → List String → List String →
    List String × List String
  | [], tokens, tags => (tokens, tags)
  | e :: es, tokens, tags =>
    let p := process_text e tokens tags
    process_text_list es p.1 p.2

/-! ## `afd.py`: `get_afds` -/

/-- `h3.find('.//span[@class="mw-headline"]')`. -/
def headline_span (h3 : Elem) : Option Elem :=
  findDesc (fun e => e.tagOf == "span" && e.attr "class" == some "mw-headline") h3

/-- The headline parse of `get_afds` (the `try` block): a missing headline
span raises; a span with no child elements is the redlink case (title from
the span's own text, no page link, not kept); otherwise the span's first
child supplies title, page link and the broken-link flag. Returns
`(title, page_link, keep)`. -/
def parse_headline (h3 : Elem) :
    Except String (Option String × Option String × Bool) :=
  match headline_span h3 with
  | none => .error "TypeError: object of type NoneType has no len()"
  | some span =>
    match span.children with
    | [] => .ok (span.text, none, false)
    | a :: _ => .ok (a.text, a.attr "href", a.attr "class" != some "new")

/-- The menu-scanning loop of `get_afds`: process each element's text until
one contains a node whose text is exactly `"View AfD"`; that node's `href`
is the discussion link and every element after it is processed
unconditionally. Returns `(afd_link, tokens, tags)`. -/
def scan_menu : List Elem → List String → List String →
    Option String × List String × List String
  | [], tokens, tags => (none, tokens, tags)
  | menu :: rest, tokens, tags =>
    match find_text_node menu "View AfD" with
    | none =>
      let p := process_text menu tokens tags
      scan_menu rest p.1 p.2
    | some nd =>
      let p := process_text_list rest tokens tags
      (nd.attr "href", p.1, p.2)

/-- One record yielded by `get_afds`. -/
structure AfdRow where
  date : String
  title : Option String
  pageLink : Option String
  afdLink : Option String
  tags : List String
  tokens : List String
  keep : Bool
deriving DecidableEq

/-- What processing one `break_by` section does: end the whole loop
(`break`), skip the section (`continue`), or yield a record. -/
inductive SectionResult : Type where
  | stop
  | skip
  | row (r : AfdRow)
deriving DecidableEq

/-- The body of the `for section in break_by(...)` loop of `get_afds`:
unwrap an `xfd-closed` boilerplate `div` into its children discarding
leading non-`h3` children (`break`ing out of the whole loop when nothing
remains), skip sections not headed by an `h3`, and otherwise parse the
headline and scan the menu. -/
def process_section (afd_date : String) (sec : List Elem) :
    Except String SectionResult := do
  match sec with
  | [] => .error "IndexError: deque index out of range"
  | s0 :: _ =>
    let sec2 ← (do
      if s0.tagOf == "div" then
        match s0.attr "class" with
        | none => .error "TypeError: argument of type NoneType is not iterable"
        | some cls =>
          if strContains cls "xfd-closed" then
            match s0.children.dropWhile (fun e => e.tagOf != "h3") with
            | [] => .ok none
            | u => .ok (some u)
          else .ok (some sec)
      else .ok (some sec) : Except String (Option (List Elem)))
    match sec2 with
    | none => .ok .stop
    | some [] => .error "IndexError: pop from an empty deque"
    | some (h3 :: rest) =>
      if h3.tagOf != "h3" then .ok .skip
      else do
        let ptk ← parse_headline h3
        let m := scan_menu rest [] []
        .ok (.row ⟨afd_date, ptk.1, ptk.2.1, m.1, m.2.2, m.2.1, ptk.2.2⟩)

/-- The loop of `get_afds` over the chunked sections. -/
def get_afds_go (afd_date : String) : List (List Elem) → Except String (List AfdRow)
  | [] => .ok []
  | sec :: rest => do
    match ← process_section afd_date sec with
    | .stop => .ok []
    | .skip => get_afds_go afd_date rest
    | .row r => do
      let rs ← get_afds_go afd_date rest
      .ok (r :: rs)

/-- `get_afds(afd_date, content)` with the date already formatted: chunk the
content's children at headers and process each section. -/
def get_afds (afd_date : String) (content : Elem) : Except String (List AfdRow) :=
  get_afds_go afd_date (break_by is_header content.children)

/-! ## `afd.py`: row emission of `get_log_page` -/

/-- One CSV row produced by `get_log_page`. -/
structure CsvRow where
  date : String
  entry : Option String
  pageLink : String
  afdLink : Option String
  hits : String
  keep : Bool
deriving DecidableEq

/-- The classification-and-emission step of `get_log_page` for one record:
the record is emitted iff `is_bio(tags | tokens)` is non-empty, with the
sorted intersection joined by spaces as the `Hits` column. -/
def emit_row (url : String) (r : AfdRow) : Option CsvRow :=
  if (is_bio (setUnion r.tags r.tokens)).isEmpty then none
  else some ⟨r.date, r.title, urljoinOpt url r.pageLink,
    (match r.afdLink with
     | none => none
     | some l => some (urljoin url l)),
    String.intercalate " " (pySorted (is_bio (setUnion r.tags r.tokens))), r.keep⟩

/-- The per-page loop of `get_log_page`, given the records extracted by
`get_afds`. -/
def get_log_page_rows (url : String) (rows : List AfdRow) : List CsvRow :=
  rows.filterMap (emit_row url)

/-! ## `new.py`: dates and timestamps

`datetime.date` and `datetime.datetime` objects compare lexicographically by
their components; only dates, hours and minutes occur in the scraped
timestamp format. -/

structure PyDate where
  year : Nat
  month : Nat
  day : Nat
deriving DecidableEq

/-- `date <` (lexicographic on year, month, day). -/
def PyDate.ltb (a b : PyDate) : Bool :=
  Nat.blt a.year b.year ||
    (a.year == b.year &&
      (Nat.blt a.month b.month ||
        (a.month == b.month && Nat.blt a.day b.day)))

structure PyDateTime where
  date : PyDate
  hour : Nat
  minute : Nat
deriving DecidableEq

/-- `datetime <` (lexicographic on date, hour, minute). -/
def PyDateTime.ltb (a b : PyDateTime) : Bool :=
  PyDate.ltb a.date b.date ||
    (a.date == b.date &&
      (Nat.blt a.hour b.hour ||
        (a.hour == b.hour && Nat.blt a.minute b.minute)))

def MONTHS : List String :=
  ["January", "February", "March", "April", "May", "June", "July",
   "August", "September", "October", "November", "December"]

def monthNumber (m : String) : Option Nat :=
  match MONTHS.findIdx? (fun x => x == m) with
  | none => none
  | some i => some (i + 1)

/-- Decimal digit run to a number, `None` when empty or non-numeric. -/
def digitsToNat (l : List Char) : Option Nat :=
  if l.isEmpty || l.any (fun c => !c.isDigit) then none
  else some (l.foldl (fun acc c => acc * 10 + (c.toNat - 48)) 0)

/-- `datetime.strptime(s, '%H:%M, %d %B %Y')`: hour, colon, minute, comma,
day, English month name, year — with the ranges `datetime` accepts. -/
def pyStrptimeTime (s : String) : Except String PyDateTime := do
  let fmtErr : String := "ValueError: time data does not match format"
  match splitOnFirst (", ".toList) s.toList with
  | none => .error fmtErr
  | some (hm, dmy) =>
    match splitOnFirst [':'] hm with
    | none => .error fmtErr
    | some (hh, mm) =>
      match splitOnFirst [' '] dmy with
      | none => .error fmtErr
      | some (dd, rest) =>
        match splitOnFirst [' '] rest with
        | none => .error fmtErr
        | some (mon, yy) =>
          match digitsToNat hh, digitsToNat mm, digitsToNat dd, digitsToNat yy,
              monthNumber (String.mk mon) with
          | some h, some mi, some d, some y, some mo =>
            if h < 24 && mi < 60 && 1 ≤ d && d ≤ 31 then
              .ok ⟨⟨y, mo, d⟩, h, mi⟩
            else .error fmtErr
          | _, _, _, _, _ => .error fmtErr

/-! ## `new.py`: row parsing and pagination -/

/-- One `NewPageInfo` namedtuple. -/
structure NewPageInfo where
  title : Option String
  user : Option String
  timestamp : PyDateTime
  url : String
  original : String
  history : String
deriving DecidableEq

/-- The body of the `for li in ul.findall('li')` loop of `iter_new_pages`:
first direct anchor gives title and original-revision link, the
`mw-newpages-time` span gives the timestamp, the `mw-newpages-pagename`
anchor gives the article link, the first descendant anchor with class
`mw-userlink` gives the user, and the anchor inside the
`mw-newpages-history` span gives the history link. Any missing part
raises. -/
def parse_li (url : String) (li : Elem) : Except String NewPageInfo := do
  let a1 ← match li.children.find? (fun e => e.tagOf == "a") with
    | none => .error "AttributeError: NoneType has no attribute get"
    | some a => .ok a
  let title := a1.attr "title"
  let original := urljoinOpt url (a1.attr "href")
  let timeNode ← match findDesc
      (fun e => e.tagOf == "span" && e.attr "class" == some "mw-newpages-time") li with
    | none => .error "AttributeError: NoneType has no attribute text"
    | some n => .ok n
  let ttext ← match timeNode.text with
    | none => .error "TypeError: strptime argument must be str"
    | some s => .ok s
  let time ← pyStrptimeTime ttext
  let a2 ← match li.children.find?
      (fun e => e.tagOf == "a" && e.attr "class" == some "mw-newpages-pagename") with
    | none => .error "AttributeError: NoneType has no attribute get"
    | some a => .ok a
  let page_url := urljoinOpt url (a2.attr "href")
  let userA ← match (descendants li).find?
      (fun a => a.tagOf == "a" &&
        (pySplit (a.attrD "class" "")).contains "mw-userlink") with
    | none => .error "Missing user."
    | some a => .ok a
  let histA ← match ((li.children.filter
        (fun e => e.tagOf == "span" && e.attr "class" == some "mw-newpages-history")).map
        (fun sp => sp.children.filter (fun e => e.tagOf == "a"))).flatten with
    | [] => .error "AttributeError: NoneType has no attribute get"
    | a :: _ => .ok a
  let history := urljoinOpt url (histA.attr "href")
  .ok ⟨title, userA.text, time, page_url, original, history⟩

/-- The `li`-sequence loop of `iter_new_pages`. -/
def iter_lis (url : String) : List Elem → Except String (List NewPageInfo)
  | [] => .ok []
  | li :: rest => do
    let r ← parse_li url li
    let rs ← iter_lis url rest
    .ok (r :: rs)

/-- `iter_new_pages(url, content)`: all `li` rows of every descendant `ul`
except the first (navigational) one, in document order. -/
def iter_new_pages (url : String) (content : Elem) : Except String (List NewPageInfo) :=
  match (descendants content).filter (fun e => e.tagOf == "ul") with
  | [] => .ok []
  | _ :: rest =>
    iter_lis url
      ((rest.map (fun ul => ul.children.filter (fun e => e.tagOf == "li"))).flatten)

/-- `get_next(url, content)`: the `mw-nextlink` anchor's `href` resolved
against the current URL, if present. -/
def get_next (url : String) (content : Elem) : Option String :=
  match findDesc (fun e => e.tagOf == "a" && e.attr "class" == some "mw-nextlink") content with
  | none => none
  | some a => some (urljoinOpt url (a.attr "href"))

/-- `get_new(url, parser)`: fetch the page, yield its rows, and recurse on
the next-page link while one exists. The network is modelled by the `fetch`
function and the unbounded Python recursion by fuel: fuel at least the
length of the next-link chain suffices, and exhausting it is an error. -/
def get_new (fetch : String → Elem) : Nat → String → Except String (List NewPageInfo)
  | 0, _ => .error "RecursionError: maximum recursion depth exceeded"
  | fuel + 1, url => do
    let content := fetch url
    let rows ← iter_new_pages url content
    match get_next url content with
    | none => .ok rows
    | some next => do
      let more ← get_new fetch fuel next
      .ok (rows ++ more)

/-- The date-window filter applied by `main` in `new.py`:
`dropwhile(r.timestamp.date() < date)` then
`takewhile(r.timestamp.date() == date)`. -/
def new_date_filter (date : PyDate) (rows : List NewPageInfo) : List NewPageInfo :=
  (rows.dropWhile (fun r => PyDate.ltb r.timestamp.date date)).takeWhile
    (fun r => r.timestamp.date == date)

/-- One page of the paginated `Special:NewPages` walk: its URL, its fetched
content tree, and the rows `iter_new_pages` extracts from it. -/
structure PageSpec where
  url : String
  content : Elem
  rows : List NewPageInfo

/-! ## Concrete fixtures used by witnesses and counterexamples -/

/-- A subtree whose accumulated text is `"See WP:BIO and WP:ARTIST here"`,
with the text spread over nested children, child tails and the root tail. -/
def exC4 : Elem :=
  .mk "p" [] (some "See ") (some " here")
    [.mk "b" [] (some "WP:BIO") (some " and ") [],
     .mk "i" [] none none [.mk "b" [] (some "WP:ARTIST") none []]]

/-- Two anchors, one with purely numeric text. -/
def exC7 : Elem :=
  .mk "div" [] none none
    [.mk "a" [("href", "/wiki/X")] (some "X") none [],
     .mk "a" [("href", "/wiki/5")] (some "5") none []]

/-- An anchor with an `href` but no own text (its visible text sits inside a
child element). -/
def exC10 : Elem :=
  .mk "div" [] none none
    [.mk "a" [("href", "/wiki/X")] none none [.mk "b" [] (some "X") none []]]

/-- A headline span with own text and a single non-anchor child. -/
def spanC6 : Elem :=
  .mk "span" [("class", "mw-headline")] (some "S") none
    [.mk "b" [] (some "T") none []]

def h3C6 : Elem := .mk "h3" [] none none [spanC6]

/-- The redlink shape: a childless headline span. -/
def spanRed : Elem := .mk "span" [("class", "mw-headline")] (some "Gone") none []

def h3Red : Elem := .mk "h3" [] none none [spanRed]

/-- The ordinary shape: a headline span holding one anchor. -/
def spanAnchor : Elem :=
  .mk "span" [("class", "mw-headline")] none none
    [.mk "a" [("href", "/wiki/Foo")] (some "Foo") none []]

def h3Anchor : Elem := .mk "h3" [] none none [spanAnchor]

/-- A closed-discussion boilerplate box none of whose children is an `h3`. -/
def badDiv : Elem :=
  .mk "div" [("class", "boilerplate xfd-closed")] none none
    [.mk "p" [] (some "closed") none []]

/-- A well-formed discussion heading. -/
def h3Good : Elem :=
  .mk "h3" [] none none
    [.mk "span" [("class", "mw-headline")] none none
      [.mk "a" [("href", "/wiki/Bar")] (some "Bar") none []]]

/-- A page whose first block is a headingless closed box and whose second
block is a well-formed discussion. -/
def contentC2 : Elem := .mk "div" [] none none [badDiv, h3Good]

def contentC2good : Elem := .mk "div" [] none none [h3Good]

/-- A container with a `ul` child and an `h3` child carrying the
`Current_discussions` span. -/
def elC8 : Elem :=
  .mk "div" [] none none
    [.mk "ul" [] none none [],
     .mk "h3" [] none none [.mk "span" [("id", "Current_discussions")] none none []]]

def rowC5 : AfdRow :=
  ⟨"2017-01-01", some "Foo", some "/wiki/Foo", some "/afd1",
   ["WP:BIO"], ["foo"], true⟩

def npRow (dt : PyDateTime) : NewPageInfo :=
  ⟨some "T", some "U", dt, "u", "o", "h"⟩

def d0 : PyDate := ⟨2017, 3, 11⟩

/-- A row one day newer than the target window. -/
def rNewer : NewPageInfo := npRow ⟨⟨2017, 3, 12⟩, 0, 0⟩

/-- A row inside the target window. -/
def rInWin : NewPageInfo := npRow ⟨⟨2017, 3, 11⟩, 5, 0⟩

/-- A row one day older than the target window. -/
def rOlder : NewPageInfo := npRow ⟨⟨2017, 3, 10⟩, 23, 59⟩

/-- One synthetic `Special:NewPages` listing row. -/
def mkNpLi (t href user hhref time : String) : Elem :=
  .mk "li" [] none none
    [.mk "a" [("title", t), ("href", href)] (some t) none [],
     .mk "span" [("class", "mw-newpages-time")] (some time) none [],
     .mk "a" [("class", "mw-newpages-pagename"), ("href", href)] (some t) none [],
     .mk "a" [("class", "mw-userlink")] (some user) none [],
     .mk "span" [("class", "mw-newpages-history")] none none
       [.mk "a" [("href", hhref)] (some "hist") none []]]

/-- One synthetic listing page: a navigational first `ul`, the listing `ul`,
and optionally a next-page anchor. -/
def mkNpPage (lis : List Elem) (next : Option String) : Elem :=
  .mk "div" [] none none
    (.mk "ul" [] none none [] ::
     .mk "ul" [] none none lis ::
     (match next with
      | none => []
      | some u => [.mk "a" [("class", "mw-nextlink"), ("href", u)] (some "next") none []]))

def pg1 : PageSpec :=
  ⟨"https://e.org/p1",
   mkNpPage [mkNpLi "A" "/wiki/A" "U1" "/hist/A" "21:30, 11 March 2017"]
     (some "https://e.org/p2"),
   [⟨some "A", some "U1", ⟨⟨2017, 3, 11⟩, 21, 30⟩, "https://e.org/wiki/A",
     "https://e.org/wiki/A", "https://e.org/hist/A"⟩]⟩

def pg2 : PageSpec :=
  ⟨"https://e.org/p2",
   mkNpPage [mkNpLi "B" "/wiki/B" "U2" "/hist/B" "20:15, 11 March 2017"]
     (some "https://e.org/p3"),
   [⟨some "B", some "U2", ⟨⟨2017, 3, 11⟩, 20, 15⟩, "https://e.org/wiki/B",
     "https://e.org/wiki/B", "https://e.org/hist/B"⟩]⟩

def pg3 : PageSpec :=
  ⟨"https://e.org/p3",
   mkNpPage [mkNpLi "C" "/wiki/C" "U3" "/hist/C" "19:00, 11 March 2017"] none,
   [⟨some "C", some "U3", ⟨⟨2017, 3, 11⟩, 19, 0⟩, "https://e.org/wiki/C",
     "https://e.org/wiki/C", "https://e.org/hist/C"⟩]⟩

/-- The modelled network for the three-page chain. -/
def fetchW : String → Elem := fun u =>
  if u == "https://e.org/p1" then pg1.content
  else if u == "https://e.org/p2" then pg2.content
  else pg3.content

end Wikip

namespace Wikip

/-- Monadic bind on a successful `Except` computation reduces to the
continuation. -/
theorem except_bind_ok {ε α β : Type} (a : α) (f : α → Except ε β) :
    (Except.ok a : Except ε α) >>= f = f a := rfl

/-! ## Lemmas about `break_by` -/

theorem break_by_go_join {α : Type} (fn : α → Bool) :
    ∀ (xs accum : List α), (break_by_go fn xs accum).flatten = accum ++ xs := by
  intro xs
  induction xs with
  | nil =>
    intro accum
    cases accum with
    | nil => simp [break_by_go]
    | cons a as => simp [break_by_go]
  | cons x rest ih =>
    intro accum
    cases hc : (fn x && !accum.isEmpty) with
    | true =>
      simp only [break_by_go]
      rw [if_pos hc, List.flatten_cons, ih [x]]
      simp
    | false =>
      simp only [break_by_go]
      rw [if_neg (by simp [hc])]
      rw [ih (accum ++ [x])]
      simp

theorem break_by_go_ne_nil {α : Type} (fn : α → Bool) :
    ∀ (xs accum : List α), ∀ g ∈ break_by_go fn xs accum, g ≠ [] := by
  intro xs
  induction xs with
  | nil =>
    intro accum g hg
    cases accum with
    | nil => simp [break_by_go] at hg
    | cons a as =>
      simp [break_by_go] at hg
      simp [hg]
  | cons x rest ih =>
    intro accum g hg
    cases hc : (fn x && !accum.isEmpty) with
    | true =>
      simp only [break_by_go] at hg
      rw [if_pos hc] at hg
      rcases List.mem_cons.mp hg with h1 | h2
      · subst h1
        intro hnil
        subst hnil
        simp at hc
      · exact ih [x] g h2
    | false =>
      simp only [break_by_go] at hg
      rw [if_neg (by simp [hc])] at hg
      exact ih (accum ++ [x]) g hg

theorem break_by_go_head_eq {α : Type} (fn : α → Bool) :
    ∀ (xs : List α) (a : α) (as : List α),
      ∃ g t, break_by_go fn xs (a :: as) = g :: t ∧ g.head? = some a := by
  intro xs
  induction xs with
  | nil =>
    intro a as
    refine ⟨a :: as, [], ?_, rfl⟩
    simp [break_by_go]
  | cons x rest ih =>
    intro a as
    cases hf : fn x with
    | true =>
      refine ⟨a :: as, break_by_go fn rest [x], ?_, rfl⟩
      simp only [break_by_go]
      rw [if_pos (by simp [hf])]
    | false =>
      simp only [break_by_go]
      rw [if_neg (by simp [hf])]
      simp only [List.cons_append]
      exact ih a (as ++ [x])

theorem break_by_go_tail_heads {α : Type} (fn : α → Bool) :
    ∀ (xs accum : List α), ∀ g ∈ (break_by_go fn xs accum).drop 1,
      ∃ h t, g = h :: t ∧ fn h = true := by
  intro xs
  induction xs with
  | nil =>
    intro accum g hg
    cases accum with
    | nil => simp [break_by_go] at hg
    | cons a as => simp [break_by_go] at hg
  | cons x rest ih =>
    intro accum g hg
    cases hc : (fn x && !accum.isEmpty) with
    | true =>
      have hf : fn x = true := by
        cases hfx : fn x
        · rw [hfx] at hc; simp at hc
        · rfl
      simp only [break_by_go] at hg
      rw [if_pos hc] at hg
      simp only [List.drop_one, List.tail_cons] at hg
      obtain ⟨g0, t0, hgo, hhead⟩ := break_by_go_head_eq fn rest x []
      rw [hgo] at hg
      rcases List.mem_cons.mp hg with h1 | h2
      · subst h1
        cases g with
        | nil => simp at hhead
        | cons gh gt =>
          have : gh = x := by simpa using hhead
          exact ⟨gh, gt, rfl, this ▸ hf⟩
      · have := ih [x] g
        rw [hgo] at this
        exact this (by simpa using h2)
    | false =>
      simp only [break_by_go] at hg
      rw [if_neg (by simp [hc])] at hg
      exact ih (accum ++ [x]) g hg

theorem break_by_go_no_fire {α : Type} (fn : α → Bool) :
    ∀ (xs accum : List α), (∀ x ∈ xs, fn x = false) →
      break_by_go fn xs accum =
        if (accum ++ xs).isEmpty then [] else [accum ++ xs] := by
  intro xs
  induction xs with
  | nil => intro accum _; simp only [break_by_go, List.append_nil]
  | cons x rest ih =>
    intro accum hall
    have hx : fn x = false := hall x (by simp)
    simp only [break_by_go]
    rw [if_neg (by simp [hx])]
    rw [ih (accum ++ [x]) (fun y hy => hall y (by simp [hy]))]
    simp

/-- **C1.** `break_by` chunks: the in-order concatenation of the groups
reproduces the input, no group is empty, every group after the first starts
with an element on which the predicate fires, and an input none of whose
elements fire (and is non-empty) comes out as the single group equal to the
whole input — the last group being flushed without a trailing boundary. -/
theorem break_by_spec {α : Type} (fn : α → Bool) (xs : List α) :
    (break_by fn xs).flatten = xs ∧
    (∀ g ∈ break_by fn xs, g ≠ []) ∧
    (∀ g ∈ (break_by fn xs).drop 1, ∃ h t, g = h :: t ∧ fn h = true) ∧
    ((xs ≠ [] ∧ ∀ x ∈ xs, fn x = false) → break_by fn xs = [xs]) := by
  refine ⟨?_, ?_, ?_, ?_⟩
  · simpa using break_by_go_join fn xs []
  · exact break_by_go_ne_nil fn xs []
  · exact break_by_go_tail_heads fn xs []
  · rintro ⟨hne, hall⟩
    have := break_by_go_no_fire fn xs [] hall
    simp only [List.nil_append] at this
    rw [break_by, this, if_neg (by simpa [List.isEmpty_iff] using hne)]

/-- Witness for C1 at a concrete input: with the predicate "is zero" and
input `[1, 0, 2, 0]`, the groups are `[[1], [0, 2], [0]]`; and on `[1, 2]`
(no element fires) the single group is the whole input. -/
theorem break_by_spec_witness :
    break_by (fun n => n == 0) [1, 0, 2, 0] = [[1], [0, 2], [0]] ∧
    ([[1], [0, 2], [0]] : List (List Nat)).flatten = [1, 0, 2, 0] ∧
    break_by (fun n => n == 0) [1, 2] = [[1, 2]] ∧
    (∀ g ∈ break_by (fun n => n == 0) [1, 0, 2, 0], g ≠ []) := by
  refine ⟨by decide, by decide, ?_, ?_⟩
  · exact (break_by_spec (fun n : Nat => n == 0) [1, 2]).2.2.2 ⟨by decide, by decide⟩
  · exact (break_by_spec (fun n : Nat => n == 0) [1, 0, 2, 0]).2.1

end Wikip

namespace Wikip

/-! ## The biography classifier (claim C5) -/

/-- **C5.** A record is emitted by `get_log_page` iff the intersection of
its tags-union-tokens with the fixed vocabulary is non-empty, and the
emitted row's `Hits` column is that intersection sorted lexicographically
and joined with spaces; `is_bio {"WP:BIO", "foo"}` matches with result
`{"WP:BIO"}` and `is_bio {"foo", "bar"}` does not match. -/
theorem is_bio_classifier_spec (url : String) (r : AfdRow) :
    ((emit_row url r).isSome = true ↔ is_bio (setUnion r.tags r.tokens) ≠ []) ∧
    (∀ c : CsvRow, emit_row url r = some c →
      c.hits = String.intercalate " " (pySorted (is_bio (setUnion r.tags r.tokens)))) ∧
    is_bio ["WP:BIO", "foo"] = ["WP:BIO"] ∧
    is_bio ["foo", "bar"] = [] := by
  refine ⟨?_, ?_, by decide, by decide⟩
  · cases h : (is_bio (setUnion r.tags r.tokens)).isEmpty with
    | true =>
      have h' : is_bio (setUnion r.tags r.tokens) = [] := by
        simpa using h
      simp [emit_row, h']
    | false =>
      have h' : is_bio (setUnion r.tags r.tokens) ≠ [] := by
        intro he
        rw [he] at h
        simp at h
      simp only [emit_row]
      rw [if_neg (by simp [h])]
      simp [h']
  · intro c hc
    simp only [emit_row] at hc
    cases h : (is_bio (setUnion r.tags r.tokens)).isEmpty with
    | true =>
      rw [if_pos h] at hc
      exact absurd hc (by simp)
    | false =>
      rw [if_neg (by simp [h])] at hc
      cases hc
      rfl

/-- Witness for C5 at a concrete record: the emitted row for `rowC5` has
`Hits` column `"WP:BIO"`. -/
theorem is_bio_classifier_spec_witness :
    CsvRow.hits ⟨"2017-01-01", some "Foo", "https://x/wiki/Foo",
        some "https://x/afd1", "WP:BIO", true⟩ =
      String.intercalate " " (pySorted (is_bio (setUnion rowC5.tags rowC5.tokens))) :=
  (is_bio_classifier_spec "https://x" rowC5).2.1 _ (by decide)

/-! ## The link extractor (claims C7 and C10) -/

/-- The per-anchor loop of `find_links` yields exactly the resolved `href`s
of the anchors that have one and whose own text is present and not purely
numeric, in order, provided every `href`-bearing anchor has its text
present. -/
theorem find_links_go_spec (base : String) : ∀ l : List Elem,
    (∀ a ∈ l, (a.attr "href").isSome = true → (a.text).isSome = true) →
    find_links_go base l = .ok (l.filterMap (fun a =>
      match a.attr "href", a.text with
      | some _, some t => if pyIsdigit t then none else some (urljoin base (optD (a.attr "href")))
      | _, _ => none)) := by
  intro l
  induction l with
  | nil => intro _; rfl
  | cons a rest ih =>
    intro h
    have hrest : ∀ b ∈ rest, (b.attr "href").isSome = true → (b.text).isSome = true :=
      fun b hb => h b (List.mem_cons_of_mem a hb)
    cases hh : a.attr "href" with
    | none =>
      simp only [find_links_go, hh, ih hrest, List.filterMap_cons]
    | some href =>
      cases ht : a.text with
      | none =>
        exfalso
        have := h a (by simp) (by simp [hh])
        simp [ht] at this
      | some t =>
        cases hd : pyIsdigit t with
        | true =>
          simp only [find_links_go, hh, ht, hd, ih hrest, List.filterMap_cons]
          simp [hh, ht, hd]
        | false =>
          simp only [find_links_go, hh, ht, hd, ih hrest, List.filterMap_cons]
          rfl

/-- **C7.** `find_links` yields, in document order, the resolved `href` of
every descendant anchor, skipping anchors with no `href` and excluding
anchors whose own text is purely numeric — provided every `href`-bearing
anchor has its text present (see C10); on
`<a href="/wiki/X">X</a><a href="/wiki/5">5</a>` with base
`https://en.wikipedia.org` it yields only `https://en.wikipedia.org/wiki/X`. -/
theorem find_links_spec (parent : Elem) (base : String)
    (h : ∀ a ∈ anchorsOf parent, (a.attr "href").isSome = true → (a.text).isSome = true) :
    find_links parent base = .ok ((anchorsOf parent).filterMap (fun a =>
      match a.attr "href", a.text with
      | some _, some t => if pyIsdigit t then none else some (urljoin base (optD (a.attr "href")))
      | _, _ => none)) ∧
    find_links exC7 "https://en.wikipedia.org" = .ok ["https://en.wikipedia.org/wiki/X"] :=
  ⟨find_links_go_spec base (anchorsOf parent) h, by decide⟩

/-- Witness for C7 at the concrete two-anchor example. -/
theorem find_links_spec_witness :
    find_links exC7 "https://en.wikipedia.org" =
      .ok ((anchorsOf exC7).filterMap (fun a =>
        match a.attr "href", a.text with
        | some _, some t =>
          if pyIsdigit t then none
          else some (urljoin "https://en.wikipedia.org" (optD (a.attr "href")))
        | _, _ => none)) :=
  (find_links_spec exC7 "https://en.wikipedia.org" (by decide)).1

/-- **C10.** `find_links` is total only when every `href`-bearing anchor has
its own text: on an anchor that has an `href` but whose visible text sits
inside a child element, the numeric-text test raises instead of the anchor
being yielded or skipped. -/
theorem find_links_none_text_error :
    find_links exC10 "https://en.wikipedia.org" =
      .error "AttributeError: NoneType has no attribute isdigit" ∧
    Elem.attr (.mk "a" [("href", "/wiki/X")] none none
      [.mk "b" [] (some "X") none []]) "href" = some "/wiki/X" ∧
    Elem.text (.mk "a" [("href", "/wiki/X")] none none
      [.mk "b" [] (some "X") none []]) = none ∧
    all_text (.mk "a" [("href", "/wiki/X")] none none
      [.mk "b" [] (some "X") none []]) = "X" := by
  refine ⟨by decide, by decide, by decide, ?_⟩
  rfl

end Wikip

namespace Wikip

/-! ## The landmark locator (claim C8) -/

theorem child_matching_go_some (f : Elem → Bool) :
    ∀ (l : List Elem) (base j : Nat), child_matching_go f l base = some j →
      ∃ k, ∃ hk : k < l.length, j = base + k ∧ f (l.get ⟨k, hk⟩) = true ∧
        ∀ m (hm : m < l.length), m < k → f (l.get ⟨m, hm⟩) = false := by
  intro l
  induction l with
  | nil => intro base j h; simp [child_matching_go] at h
  | cons c cs ih =>
    intro base j h
    simp only [child_matching_go] at h
    cases hf : f c with
    | true =>
      rw [if_pos hf] at h
      cases h
      exact ⟨0, Nat.succ_pos _, by omega, hf, fun m hm hmk => absurd hmk (Nat.not_lt_zero m)⟩
    | false =>
      rw [if_neg (by simp [hf])] at h
      obtain ⟨k, hk, hj, hfk, hall⟩ := ih (base + 1) j h
      refine ⟨k + 1, Nat.succ_lt_succ hk, by omega, hfk, ?_⟩
      intro m hm hmk
      cases m with
      | zero => exact hf
      | succ m' => exact hall m' (Nat.lt_of_succ_lt_succ hm) (Nat.lt_of_succ_lt_succ hmk)

theorem child_matching_go_none (f : Elem → Bool) :
    ∀ (l : List Elem) (base : Nat), child_matching_go f l base = none →
      ∀ m (hm : m < l.length), f (l.get ⟨m, hm⟩) = false := by
  intro l
  induction l with
  | nil => intro base _ m hm; simp at hm
  | cons c cs ih =>
    intro base h m hm
    simp only [child_matching_go] at h
    cases hf : f c with
    | true => rw [if_pos hf] at h; cases h
    | false =>
      rw [if_neg (by simp [hf])] at h
      cases m with
      | zero => exact hf
      | succ m' => exact ih (base + 1) h m' (Nat.lt_of_succ_lt_succ hm)

/-- **C8.** `child_matching` returns the index of the first child at or
after the start offset on which the predicate fires (and only such an
index), and when no child at or after the start matches, `find_h3` fails
with a fatal error carrying the identifier sought and `find_ul` with its
fixed error — there is no fallback value. -/
theorem landmark_locator_spec (el : Elem) (f : Elem → Bool) (start : Nat) :
    (∀ i, child_matching el f start = some i →
      start ≤ i ∧ ∃ hi : i < el.children.length,
        f (el.children.get ⟨i, hi⟩) = true ∧
        ∀ j (hj : j < el.children.length), start ≤ j → j < i →
          f (el.children.get ⟨j, hj⟩) = false) ∧
    (child_matching el f start = none →
      ∀ j (hj : j < el.children.length), start ≤ j →
        f (el.children.get ⟨j, hj⟩) = false) ∧
    (∀ id_value,
      child_matching el (fun e => e.tagOf == "h3" && has_span id_value e) start = none →
        find_h3 el id_value start = .error ("Unable to find #" ++ id_value ++ ".")) ∧
    (child_matching el (fun e => e.tagOf == "ul") start = none →
      find_ul el start = .error "Unable to find list.") := by
  refine ⟨?_, ?_, ?_, ?_⟩
  · intro i h
    obtain ⟨k, hk, hik, hfk, hall⟩ := child_matching_go_some f _ _ _ h
    have hlen : (el.children.drop start).length = el.children.length - start :=
      List.length_drop start el.children
    have hi : i < el.children.length := by omega
    refine ⟨by omega, hi, ?_, ?_⟩
    · have : el.children.get ⟨i, hi⟩ = (el.children.drop start).get ⟨k, hk⟩ := by
        simp only [List.get_eq_getElem, List.getElem_drop]
        congr 1
      rw [this]
      exact hfk
    · intro j hj hsj hji
      have hm : j - start < (el.children.drop start).length := by omega
      have : el.children.get ⟨j, hj⟩ = (el.children.drop start).get ⟨j - start, hm⟩ := by
        simp only [List.get_eq_getElem, List.getElem_drop]
        congr 1
        all_goals omega
      rw [this]
      exact hall (j - start) hm (by omega)
  · intro h j hj hsj
    have hm : j - start < (el.children.drop start).length := by
      have := List.length_drop start el.children
      omega
    have : el.children.get ⟨j, hj⟩ = (el.children.drop start).get ⟨j - start, hm⟩ := by
      simp only [List.get_eq_getElem, List.getElem_drop]
      congr 1
      all_goals omega
    rw [this]
    exact child_matching_go_none f _ _ h (j - start) hm
  · intro id_value h
    simp [find_h3, h]
  · intro h
    simp [find_ul, h]

/-- Witness for C8 at a concrete container: child 0 is the `ul` found from
start 0; from start 1 no `ul` follows and `find_ul` errors; no sibling
carries the `Old_discussions` span and `find_h3` errors with that
identifier in the message. -/
theorem landmark_locator_spec_witness :
    (0 ≤ 0 ∧ ∃ hi : 0 < elC8.children.length,
      (fun e => e.tagOf == "ul") (elC8.children.get ⟨0, hi⟩) = true ∧
      ∀ j (hj : j < elC8.children.length), 0 ≤ j → j < 0 →
        (fun e => e.tagOf == "ul") (elC8.children.get ⟨j, hj⟩) = false) ∧
    find_ul elC8 1 = .error "Unable to find list." ∧
    find_h3 elC8 "Old_discussions" 0 = .error "Unable to find #Old_discussions." := by
  refine ⟨?_, ?_, ?_⟩
  · exact (landmark_locator_spec elC8 (fun e => e.tagOf == "ul") 0).1 0 (by decide)
  · exact (landmark_locator_spec elC8 (fun e => e.tagOf == "ul") 1).2.2.2 (by decide)
  · exact (landmark_locator_spec elC8 (fun e => e.tagOf == "h3") 0).2.2.1 "Old_discussions" (by decide)

end Wikip

namespace Wikip

/-! ## The text/tag accumulator (claim C4) -/

/-- **C4.** `all_text` concatenates in depth-first reading order — own text,
then each child recursively (each child contributing its own tail after its
subtree), then the element's tail — and `process_text` adds every `WP:\w+`
match of that text to the tag set and every whitespace-split word to the
token set by set union; on the example subtree whose text reads
`"See WP:BIO and WP:ARTIST here"` the tag set is `{WP:BIO, WP:ARTIST}` and
the token set contains both as whole words. -/
theorem all_text_process_text_spec :
    (∀ (tag : String) (attrs : List (String × String)) (tx tl : Option String)
        (ch : List Elem),
      all_text (.mk tag attrs tx tl ch) = optD tx ++ all_text_list ch ++ optD tl) ∧
    (∀ (c : Elem) (cs : List Elem),
      all_text_list (c :: cs) = all_text c ++ all_text_list cs) ∧
    (∀ (node : Elem) (tokens tags : List String),
      process_text node tokens tags =
        (setUnion tokens (pySplit (all_text node)),
         setUnion tags (wpFindall (all_text node)))) ∧
    all_text exC4 = "See WP:BIO and WP:ARTIST here" ∧
    process_text exC4 [] [] =
      (["See", "WP:BIO", "and", "WP:ARTIST", "here"], ["WP:BIO", "WP:ARTIST"]) ∧
    "WP:BIO" ∈ (process_text exC4 [] []).1 ∧ "WP:ARTIST" ∈ (process_text exC4 [] []).1 ∧
    "WP:BIO" ∈ (process_text exC4 [] []).2 ∧ "WP:ARTIST" ∈ (process_text exC4 [] []).2 :=
  ⟨fun _ _ _ _ _ => rfl, fun _ _ => rfl, fun _ _ _ => rfl,
   by decide, by decide, by decide, by decide, by decide, by decide⟩

/-! ## The headline parse (claim C6) -/

/-- **C6 counterexample.** A headline span with own text `"S"` and a single
non-anchor child (a `b` holding `"T"`): it has no anchor child, yet the
parse takes the title from the `b` child (not the span's own text) and
treats the article as kept — so the claim's redlink branch, keyed on "no
anchor child", does not describe the code, which keys on "no children at
all". -/
theorem parse_headline_redlink_counterexample :
    spanC6.children.all (fun c => c.tagOf != "a") = true ∧
    parse_headline h3C6 = .ok (some "T", none, true) ∧
    spanC6.text = some "S" ∧
    parse_headline h3C6 ≠ .ok (spanC6.text, none, false) := by
  refine ⟨by decide, by decide, by decide, by decide⟩

/-- **C6 (amended).** If the headline span has no child elements at all
(redlink case), the record takes the span's own text as title with no
article link and `kept = False`; otherwise title and article link come from
the span's first child element and `kept` is true unless that child is
marked as a broken (`"new"`/red) link. -/
theorem parse_headline_spec (h3 span : Elem)
    (hspan : headline_span h3 = some span) :
    (span.children = [] → parse_headline h3 = .ok (span.text, none, false)) ∧
    (∀ a rest, span.children = a :: rest →
      parse_headline h3 = .ok (a.text, a.attr "href", a.attr "class" != some "new")) := by
  constructor
  · intro h
    simp [parse_headline, hspan, h]
  · intro a rest h
    simp [parse_headline, hspan, h]

/-- Witness for amended C6 at concrete headings: a childless span parses to
the redlink record, an anchor-bearing span parses from its anchor. -/
theorem parse_headline_spec_witness :
    parse_headline h3Red = .ok (spanRed.text, none, false) ∧
    parse_headline h3Anchor =
      .ok ((Elem.mk "a" [("href", "/wiki/Foo")] (some "Foo") none []).text,
        (Elem.mk "a" [("href", "/wiki/Foo")] (some "Foo") none []).attr "href",
        (Elem.mk "a" [("href", "/wiki/Foo")] (some "Foo") none []).attr "class" != some "new") := by
  constructor
  · exact (parse_headline_spec h3Red spanRed rfl).1 rfl
  · exact (parse_headline_spec h3Anchor spanAnchor rfl).2 _ [] rfl

/-! ## The closed-discussion unwrap (claim C2) -/

/-- **C2 counterexample.** A page whose first block is an `xfd-closed`
boilerplate box with no heading inside, followed by a well-formed
discussion block: the code `break`s out of the whole loop and yields no
records at all, although the subsequent block yields a record when it is
the only block — so extraction does not continue to subsequent blocks. -/
theorem get_afds_closed_break_counterexample :
    get_afds "2017-01-01" contentC2 = .ok [] ∧
    get_afds "2017-01-01" contentC2good =
      .ok [⟨"2017-01-01", some "Bar", some "/wiki/Bar", none, [], [], true⟩] := by
  refine ⟨by decide, by decide⟩

/-- **C2 (amended).** A block whose first element is a closed-discussion
boilerplate container is replaced by that container's own children with
leading non-heading children discarded; when that leaves no heading at all,
the `break` statement ends extraction for the whole page: no record is
produced for this or any subsequent block. -/
theorem get_afds_closed_break_spec (d cls : String) (kids rest : List Elem)
    (_hb : strContains cls "boilerplate" = true)
    (hx : strContains cls "xfd-closed" = true)
    (hnoh3 : ∀ k ∈ kids, k.tagOf ≠ "h3") :
    get_afds d (.mk "div" [] none none
      (.mk "div" [("class", cls)] none none kids :: rest)) = .ok [] := by
  have hdrop : kids.dropWhile (fun e => e.tagOf != "h3") = [] := by
    rw [List.dropWhile_eq_nil_iff]
    intro k hk
    exact bne_iff_ne.mpr (hnoh3 k hk)
  have hacc : (is_header (.mk "div" [("class", cls)] none none kids) &&
      !(List.isEmpty ([] : List Elem))) = false := by
    simp
  simp only [get_afds, Elem.children, break_by]
  rw [show break_by_go is_header
      (Elem.mk "div" [("class", cls)] none none kids :: rest) [] =
      break_by_go is_header rest [Elem.mk "div" [("class", cls)] none none kids] from by
    simp only [break_by_go, hacc]
    rw [if_neg (by simp)]
    rfl]
  obtain ⟨g, t, hgo, hhead⟩ :=
    break_by_go_head_eq is_header rest (Elem.mk "div" [("class", cls)] none none kids) []
  rw [hgo]
  cases g with
  | nil => simp at hhead
  | cons g0 gs =>
    have hg0 : g0 = Elem.mk "div" [("class", cls)] none none kids := by
      simpa using hhead
    subst hg0
    have htag : ((Elem.mk "div" [("class", cls)] none none kids).tagOf == "div") = true := rfl
    have hattr : (Elem.mk "div" [("class", cls)] none none kids).attr "class" = some cls := rfl
    have hchild : (Elem.mk "div" [("class", cls)] none none kids).children = kids := rfl
    simp only [get_afds_go, process_section]
    simp [htag, hattr, hchild, hdrop, hx, except_bind_ok]

/-- Witness for amended C2 at a concrete page. -/
theorem get_afds_closed_break_spec_witness :
    get_afds "2017-02-02" (.mk "div" [] none none
      (.mk "div" [("class", "boilerplate xfd-closed")] none none
        [.mk "p" [] (some "closed") none []] :: [h3Good])) = .ok [] :=
  get_afds_closed_break_spec "2017-02-02" "boilerplate xfd-closed"
    [.mk "p" [] (some "closed") none []] [h3Good] (by decide) (by decide) (by decide)

end Wikip

namespace Wikip

/-! ## Date-order lemmas for the new-pages window filter (claim C3) -/

theorem pydate_ltb_iff (y1 m1 d1 y2 m2 d2 : Nat) :
    PyDate.ltb ⟨y1, m1, d1⟩ ⟨y2, m2, d2⟩ = true ↔
      y1 < y2 ∨ (y1 = y2 ∧ (m1 < m2 ∨ (m1 = m2 ∧ d1 < d2))) := by
  simp [PyDate.ltb, Nat.blt_eq]

theorem pydate_ltb_false_iff (y1 m1 d1 y2 m2 d2 : Nat) :
    PyDate.ltb ⟨y1, m1, d1⟩ ⟨y2, m2, d2⟩ = false ↔
      ¬(y1 < y2 ∨ (y1 = y2 ∧ (m1 < m2 ∨ (m1 = m2 ∧ d1 < d2)))) := by
  rw [← pydate_ltb_iff]
  cases PyDate.ltb ⟨y1, m1, d1⟩ ⟨y2, m2, d2⟩ <;> simp

/-- Transitivity of "not later than" on dates. -/
theorem pydate_ge_trans (a b c : PyDate) (h1 : PyDate.ltb a b = false)
    (h2 : PyDate.ltb b c = false) : PyDate.ltb a c = false := by
  cases a with | mk y1 m1 d1 =>
  cases b with | mk y2 m2 d2 =>
  cases c with | mk y3 m3 d3 =>
  rw [pydate_ltb_false_iff] at h1 h2 ⊢
  omega

/-- `s ≤ r` and `r < d` give `s < d`. -/
theorem pydate_lt_of_ge_of_lt (s r d : PyDate) (h1 : PyDate.ltb r s = false)
    (h2 : PyDate.ltb r d = true) : PyDate.ltb s d = true := by
  cases s with | mk y1 m1 d1 =>
  cases r with | mk y2 m2 d2 =>
  cases d with | mk y3 m3 d3 =>
  rw [pydate_ltb_false_iff] at h1
  rw [pydate_ltb_iff] at h2 ⊢
  omega

/-- Dates that are neither way earlier are equal. -/
theorem pydate_eq_of_not_lt (a b : PyDate) (h1 : PyDate.ltb a b = false)
    (h2 : PyDate.ltb b a = false) : a = b := by
  cases a with | mk y1 m1 d1 =>
  cases b with | mk y2 m2 d2 =>
  rw [pydate_ltb_false_iff] at h1 h2
  simp only [PyDate.mk.injEq]
  omega

/-- An earlier date is a different date. -/
theorem pydate_beq_false_of_lt (a b : PyDate) (h : PyDate.ltb a b = true) :
    (a == b) = false := by
  cases a with | mk y1 m1 d1 =>
  cases b with | mk y2 m2 d2 =>
  rw [pydate_ltb_iff] at h
  rw [beq_eq_false_iff_ne]
  simp only [ne_eq, PyDate.mk.injEq, not_and]
  omega

/-- A strictly earlier timestamp is on a date that is not later. -/
theorem pydatetime_ltb_date (s r : PyDateTime)
    (h : PyDateTime.ltb s r = true) : PyDate.ltb r.date s.date = false := by
  cases s with | mk ds hs ms =>
  cases r with | mk dr hr mr =>
  simp only [PyDateTime.ltb] at h
  cases hlt : PyDate.ltb ds dr with
  | true =>
    cases ds with | mk y1 m1 d1 =>
    cases dr with | mk y2 m2 d2 =>
    rw [pydate_ltb_iff] at hlt
    rw [pydate_ltb_false_iff]
    omega
  | false =>
    rw [hlt] at h
    simp only [Bool.false_or, Bool.and_eq_true, beq_iff_eq] at h
    rw [h.1]
    cases dr with | mk y2 m2 d2 =>
    rw [pydate_ltb_false_iff]
    omega

/-- When every row is strictly older than the window, both the
dropwhile/takewhile pipeline and the in-window filter give nothing. -/
theorem new_filter_all_old (date : PyDate) :
    ∀ l : List NewPageInfo,
      (∀ s ∈ l, PyDate.ltb s.timestamp.date date = true) →
      new_date_filter date l = [] ∧
      l.filter (fun r => r.timestamp.date == date) = [] := by
  intro l
  induction l with
  | nil => intro _; exact ⟨rfl, rfl⟩
  | cons r rest ih =>
    intro h
    have hr := h r (by simp)
    obtain ⟨ih1, ih2⟩ := ih (fun s hs => h s (by simp [hs]))
    constructor
    · simp only [new_date_filter, List.dropWhile_cons, hr, if_true]
      simpa [new_date_filter] using ih1
    · simp only [List.filter_cons, pydate_beq_false_of_lt _ _ hr]
      simpa using ih2

/-- In a strictly-descending listing, every later row's date is not later
than the head's date. -/
theorem chain_dates_bound (x : NewPageInfo) :
    ∀ l : List NewPageInfo,
      List.Chain' (fun a b => PyDateTime.ltb b.timestamp a.timestamp = true) (x :: l) →
      ∀ s ∈ l, PyDate.ltb x.timestamp.date s.timestamp.date = false := by
  intro l
  induction l generalizing x with
  | nil => intro _ s hs; simp at hs
  | cons y rest ih =>
    intro hch s hs
    have hxy : PyDateTime.ltb y.timestamp x.timestamp = true :=
      (List.chain'_cons.mp hch).1
    have hxy' : PyDate.ltb x.timestamp.date y.timestamp.date = false :=
      pydatetime_ltb_date _ _ hxy
    rcases List.mem_cons.mp hs with rfl | hs'
    · exact hxy'
    · exact pydate_ge_trans _ _ _ hxy'
        (ih y (List.chain'_cons.mp hch).2 s hs')

/-- On a descending listing none of whose rows is newer than the window,
taking while in-window is the same as filtering for in-window. -/
theorem take_filter_eq (date : PyDate) :
    ∀ l : List NewPageInfo,
      List.Chain' (fun a b => PyDateTime.ltb b.timestamp a.timestamp = true) l →
      (∀ s ∈ l, PyDate.ltb date s.timestamp.date = false) →
      l.takeWhile (fun r => r.timestamp.date == date) =
        l.filter (fun r => r.timestamp.date == date) := by
  intro l
  induction l with
  | nil => intro _ _; rfl
  | cons r rest ih =>
    intro hch hle
    cases he : (r.timestamp.date == date) with
    | true =>
      simp only [List.takeWhile_cons, List.filter_cons, he, if_true]
      rw [ih hch.tail (fun s hs => hle s (List.mem_cons_of_mem r hs))]
    | false =>
      have hne : r.timestamp.date ≠ date := by
        simpa using he
      have hnlt : PyDate.ltb date r.timestamp.date = false := hle r (by simp)
      have hlt : PyDate.ltb r.timestamp.date date = true := by
        cases h2 : PyDate.ltb r.timestamp.date date with
        | true => rfl
        | false => exact absurd (pydate_eq_of_not_lt _ _ h2 hnlt) hne
      have hall : ∀ s ∈ r :: rest, PyDate.ltb s.timestamp.date date = true := by
        intro s hs
        rcases List.mem_cons.mp hs with rfl | hs'
        · exact hlt
        · exact pydate_lt_of_ge_of_lt _ _ _ (chain_dates_bound r rest hch s hs') hlt
      simp only [List.takeWhile_cons, List.filter_cons, he, if_false]
      have := (new_filter_all_old date rest
        (fun s hs => hall s (List.mem_cons_of_mem r hs))).2
      simp [this]

/-- **C3 counterexample.** Two strictly descending rows, the first one day
newer than the window: the claim says the filter emits exactly the
in-window rows (here the second row), but `dropwhile(date() < target)`
drops nothing (the head is newer, not older) and
`takewhile(date() == target)` stops on the head, so nothing is emitted. -/
theorem new_date_filter_counterexample :
    List.Chain' (fun a b => PyDateTime.ltb b.timestamp a.timestamp = true)
      [rNewer, rInWin] ∧
    new_date_filter d0 [rNewer, rInWin] = [] ∧
    [rNewer, rInWin].filter (fun r => r.timestamp.date == d0) = [rInWin] ∧
    new_date_filter d0 [rNewer, rInWin] ≠
      [rNewer, rInWin].filter (fun r => r.timestamp.date == d0) := by
  refine ⟨?_, by decide, by decide, by decide⟩
  simp [List.chain'_cons, List.chain'_singleton]
  decide

/-- **C3 (amended).** For a finite sequence of rows whose timestamps are
strictly descending *and none of which is newer than the target window*,
the caller's `dropwhile(date() < target)`/`takewhile(date() == target)`
pipeline emits exactly the rows inside the window. (The leading rows the
pipeline drops are the ones *older* than the window — on descending input
that means all rows — not the newer ones; leading rows newer than the
window make the output empty instead.) -/
theorem new_date_filter_spec (date : PyDate) (rows : List NewPageInfo)
    (hdesc : List.Chain' (fun a b => PyDateTime.ltb b.timestamp a.timestamp = true) rows)
    (hnotnewer : ∀ r ∈ rows, PyDate.ltb date r.timestamp.date = false) :
    new_date_filter date rows = rows.filter (fun r => r.timestamp.date == date) := by
  cases rows with
  | nil => rfl
  | cons r rest =>
    cases hold : PyDate.ltb r.timestamp.date date with
    | true =>
      have hall : ∀ s ∈ r :: rest, PyDate.ltb s.timestamp.date date = true := by
        intro s hs
        rcases List.mem_cons.mp hs with rfl | hs'
        · exact hold
        · exact pydate_lt_of_ge_of_lt _ _ _
            (chain_dates_bound r rest hdesc s hs') hold
      obtain ⟨h1, h2⟩ := new_filter_all_old date (r :: rest) hall
      rw [h1, h2]
    | false =>
      simp only [new_date_filter, List.dropWhile_cons, hold, if_false]
      exact take_filter_eq date (r :: rest) hdesc hnotnewer

/-- Witness for amended C3: a descending in-window row followed by an older
row filter to exactly the in-window row. -/
theorem new_date_filter_spec_witness :
    new_date_filter d0 [rInWin, rOlder] =
      List.filter (fun r => r.timestamp.date == d0) [rInWin, rOlder] :=
  new_date_filter_spec d0 [rInWin, rOlder]
    (by simp [List.chain'_cons, List.chain'_singleton]; decide) (by decide)

end Wikip

namespace Wikip

/-! ## The paginated walker (claim C9) -/

/-- **C9.** For every finite chain of listing pages in which each page links
to the next via a `mw-nextlink` anchor and the last page has none, the
paginated walker terminates within chain-length many fetches, yielding
exactly the rows of every page in the chain, in order. -/
theorem get_new_chain_spec (fetch : String → Elem) :
    ∀ (ps : List PageSpec) (p : PageSpec),
      (∀ q ∈ p :: ps, fetch q.url = q.content) →
      (∀ q ∈ p :: ps, iter_new_pages q.url q.content = .ok q.rows) →
      List.Chain' (fun a b => get_next a.url a.content = some b.url) (p :: ps) →
      get_next ((p :: ps).getLast (List.cons_ne_nil p ps)).url
        ((p :: ps).getLast (List.cons_ne_nil p ps)).content = none →
      ∀ fuel, ps.length < fuel →
        get_new fetch fuel p.url = .ok (((p :: ps).map PageSpec.rows).flatten) := by
  intro ps
  induction ps with
  | nil =>
    intro p hf hr _ hlast fuel hfuel
    match fuel, hfuel with
    | fuel + 1, _ =>
      have hfp : fetch p.url = p.content := hf p (by simp)
      have hl : get_next p.url p.content = none := hlast
      simp only [get_new, hfp, hr p (by simp), except_bind_ok, hl]
      simp
  | cons q qs ih =>
    intro p hf hr hch hlast fuel hfuel
    match fuel, hfuel with
    | fuel + 1, hfuel =>
      have hfp : fetch p.url = p.content := hf p (by simp)
      have hnext : get_next p.url p.content = some q.url := (List.chain'_cons.mp hch).1
      have hlast' : get_next ((q :: qs).getLast (List.cons_ne_nil q qs)).url
          ((q :: qs).getLast (List.cons_ne_nil q qs)).content = none := hlast
      have hih := ih q (fun x hx => hf x (by simp [hx]))
        (fun x hx => hr x (by simp [hx])) (List.chain'_cons.mp hch).2 hlast'
        fuel (by simpa using Nat.lt_of_succ_lt_succ (by simpa using hfuel))
      simp only [get_new, hfp, hr p (by simp), except_bind_ok, hnext, hih]
      simp

/-- Witness for C9: a chain of three synthetic pages where only the first
two contain a next link yields the rows of all three pages with fuel 3. -/
theorem get_new_chain_spec_witness :
    get_new fetchW 3 "https://e.org/p1" =
      .ok ((([pg1, pg2, pg3]).map PageSpec.rows).flatten) := by
  have hp1 : "https://e.org/p1" = pg1.url := rfl
  rw [hp1]
  refine get_new_chain_spec fetchW [pg2, pg3] pg1 ?_ ?_ ?_ ?_ 3 (by decide)
  · intro x hx
    simp only [List.mem_cons, List.not_mem_nil, or_false] at hx
    rcases hx with rfl | rfl | rfl <;> rfl
  · intro x hx
    simp only [List.mem_cons, List.not_mem_nil, or_false] at hx
    rcases hx with rfl | rfl | rfl <;> decide
  · refine List.chain'_cons.mpr ⟨by decide, List.chain'_cons.mpr ⟨by decide, ?_⟩⟩
    simp
  · decide

end Wikip
